import Mathlib

/-!
Verification development for the `das_extractor` bioreactor-export parser.

The Python source (src/das_extractor.py) is shallowly embedded below:
pure functions become Lean functions, pandas `DataFrame`s become lists of
rows (cells are `Option`-valued to model `NaN`), machine floats are
modelled as `ℚ` (only sign/abs/ordering of the parsed values matter to the
properties proved here), and fallible code returns `Option`/`Except`.
-/

namespace DasExtractor

/-! ### Generic string helpers (models of the Python string operations used) -/

/-- Model of Python whitespace (the characters matched by `str.strip` and `\s`). -/
def isPySpace (c : Char) : Bool :=
  c = ' ' || c = '\t' || c = '\n' || c = '\r' || c = '\x0b' || c = '\x0c'

/-- Python `str.lstrip()` with no argument: drop leading whitespace. -/
def pyLstrip (s : String) : String :=
  String.mk (s.data.dropWhile isPySpace)

/-- Python `str.strip(chars)`: drop leading and trailing characters belonging
to the given set (here used for `strip('["]')`). -/
def pyStripSet (cs : List Char) (s : String) : String :=
  String.mk (((s.data.dropWhile (cs.contains ·)).reverse.dropWhile (cs.contains ·)).reverse)

/-- `needle` occurs as a contiguous substring of `haystack` (model of Python
`in` on strings and of `pandas.Series.str.contains` with a literal pattern). -/
def strContains (haystack needle : String) : Bool :=
  (List.range (haystack.data.length + 1)).any
    (fun i => needle.data.isPrefixOf (haystack.data.drop i))

/-- Python `str.startswith` (the core `String.startsWith` is avoided
throughout so that every definition reduces inside the kernel). -/
def pyStartsWith (s pre : String) : Bool :=
  pre.data.isPrefixOf s.data

/-- Fuel-driven worker for `pySplit` (the fuel, an upper bound on the scan
length, only makes the recursion structural). -/
def pySplitGo (sep : List Char) : Nat → List Char → List Char → List (List Char)
  | 0, cs, acc => [acc.reverse ++ cs]
  | _ + 1, [], acc => [acc.reverse]
  | fuel + 1, c :: rest, acc =>
    if sep.isPrefixOf (c :: rest) then
      acc.reverse :: pySplitGo sep fuel ((c :: rest).drop sep.length) []
    else pySplitGo sep fuel rest (c :: acc)

/-- Python `s.split(sep)` for a non-empty separator: split at each leftmost
non-overlapping occurrence, keeping empty pieces. -/
def pySplit (s : String) (sep : String) : List String :=
  (pySplitGo sep.data s.data.length s.data []).map String.mk

/-- Quote-aware split of one CSV line on `;` (model of both `csv.reader` with
`delimiter=';', quotechar='"'` and `pandas.read_csv` with `sep=';'`; a `"`
toggles quoting and is dropped, a `;` inside quotes is literal text).
Doubled-quote escapes do not occur in the inputs considered here. -/
def splitSemiAux : List Char → Bool → List Char → List (List Char)
  | [], _, acc => [acc.reverse]
  | c :: rest, inQ, acc =>
    if c = '"' then splitSemiAux rest (!inQ) acc
    else if c = ';' && !inQ then acc.reverse :: splitSemiAux rest inQ []
    else splitSemiAux rest inQ (c :: acc)

/-- Split a CSV line into its fields. -/
def splitSemi (line : String) : List String :=
  (splitSemiAux line.data false []).map String.mk

/-! ### Tables (model of `pandas.DataFrame`)

A cell is `Option String` (`none` = `NaN`); rows shorter than the header are
padded with `none` on the right, exactly as `pandas.read_csv` fills missing
trailing fields with `NaN`. -/

structure Table where
  names : List String
  rows : List (List (Option String))
deriving DecidableEq, Repr

/-- Pad a split row on the right with `none` up to width `n`. -/
def padRow (n : Nat) (r : List String) : List (Option String) :=
  r.map some ++ List.replicate (n - r.length) none

/-! ### Irregular-CSV Parser (`h_parse_irregular_csv`, source lines 159–192) -/

/-- Maximum length of the split data rows (Python `max(len(row) for row in reader)`). -/
def maxRowLen (rowsSplit : List (List String)) : Nat :=
  (rowsSplit.map List.length).foldl max 0

/-- Embedding of `h_parse_irregular_csv`: first pass measures the maximum
field count over the data rows, the header is extended with
`unknown1..unknownK` names, and the lines are re-parsed against the extended
header.  Returns `none` when the Python code would raise (`next` on an empty
reader, or `max` of an empty sequence when there are no data rows).  Blank
lines contribute no data row in either Python pass (`csv.reader` yields an
empty record never attaining the max; `read_csv` skips blank lines), so they
are filtered here. -/
def h_parse_irregular_csv (irregular_csv : List String) : Option Table :=
  match irregular_csv with
  | [] => none
  | headerLine :: body =>
    let header := splitSemi headerLine
    let dataLines := body.filter (· ≠ "")
    match dataLines with
    | [] => none
    | _ =>
      let rowsSplit := dataLines.map splitSemi
      let num_cols := maxRowLen rowsSplit
      let names := header ++ (List.range (num_cols - header.length)).map
        (fun i => "unknown" ++ toString (i + 1))
      some ⟨names, rowsSplit.map (padRow names.length)⟩

/-! ### Column Name Normalizer (`h_standardize_das_cdf_cols_names`, lines 253–307)

Each of the three `re.sub` calls is embedded as a left-to-right scanner
replacing leftmost non-overlapping matches, exactly the `re.sub` strategy. -/

/-- Fuel-driven scanner for `re.sub(r"Unit [0-9]\.", "", name)` (the fuel, an
upper bound on the scan length, only makes the recursion structural). -/
def subUnitDotGo : Nat → List Char → List Char
  | 0, cs => cs
  | _ + 1, [] => []
  | fuel + 1, c :: rest =>
    match c, rest with
    | 'U', 'n' :: 'i' :: 't' :: ' ' :: d :: '.' :: rest2 =>
      if d.isDigit then subUnitDotGo fuel rest2
      else c :: subUnitDotGo fuel rest
    | _, _ => c :: subUnitDotGo fuel rest

/-- `re.sub(r"Unit [0-9]\.", "", name)`: leftmost non-overlapping matches
are deleted, scanning left to right. -/
def subUnitDot (cs : List Char) : List Char :=
  subUnitDotGo cs.length cs

/-- Fuel-driven scanner for `re.sub(r"\s?[0-9]\.", ".", name)`. -/
def subDigitDotGo : Nat → List Char → List Char
  | 0, cs => cs
  | _ + 1, [] => []
  | fuel + 1, c :: rest =>
    if isPySpace c then
      match rest with
      | d :: '.' :: rest2 =>
        if d.isDigit then '.' :: subDigitDotGo fuel rest2
        else c :: subDigitDotGo fuel rest
      | _ => c :: subDigitDotGo fuel rest
    else if c.isDigit then
      match rest with
      | '.' :: rest2 => '.' :: subDigitDotGo fuel rest2
      | _ => c :: subDigitDotGo fuel rest
    else c :: subDigitDotGo fuel rest

/-- `re.sub(r"\s?[0-9]\.", ".", name)`: an optional whitespace character, a
digit and a dot collapse to a dot (the `\s?` alternative is tried greedily
first, as in Python). -/
def subDigitDot (cs : List Char) : List Char :=
  subDigitDotGo cs.length cs

/-- Fuel-driven scanner for `re.sub(r"[0-9]\s\[", " [", name)`. -/
def subDigitBracketGo : Nat → List Char → List Char
  | 0, cs => cs
  | _ + 1, [] => []
  | fuel + 1, c :: rest =>
    if c.isDigit then
      match rest with
      | s :: '[' :: rest2 =>
        if isPySpace s then ' ' :: '[' :: subDigitBracketGo fuel rest2
        else c :: subDigitBracketGo fuel rest
      | _ => c :: subDigitBracketGo fuel rest
    else c :: subDigitBracketGo fuel rest

/-- `re.sub(r"[0-9]\s\[", " [", name)`: a digit followed by whitespace and
`[` becomes `" ["`. -/
def subDigitBracket (cs : List Char) : List Char :=
  subDigitBracketGo cs.length cs

/-- The literal version-4 → version-5 lookup table (`das_converter_dict`). -/
def das_converter_dict : List (String × String) :=
  [("Inoculation Time []", "InoculationTime []"),
   ("pH.Out []", "pH.Out [%]"),
   ("CTR [mM/h]", "CTR.PV [mMol/h]"),
   ("RQ []", "RQ.PV []"),
   ("AU []", "ODAU.PV []"),
   ("CX []", "ODCX.PV []"),
   ("Level.PV [µS]", "Lvl.PV [µS]"),
   ("MA.PV [g]", "BalA.MPV [g]"),
   ("MB.PV [g]", "BalB.MPV [g]"),
   ("Torque.PV [mNm]", "N.TStirPV [mNm]"),
   ("Offline.A []", "OfflineA.OfflineA []"),
   ("Offline.B []", "OfflineB.OfflineB []"),
   ("Offline.C []", "OfflineC.OfflineC []"),
   ("Offline.D []", "OfflineD.OfflineD []"),
   ("OTR [mM/h]", "OTR.PV [mMol/h]"),
   ("V.PV [mL]", "V.VPV [mL]")]

/-- `pandas.Series.replace` with a dict: a value equal to a key is replaced
by the associated value, anything else is unchanged. -/
def applyConverter (s : String) : String :=
  (das_converter_dict.lookup s).getD s

/-- Normalize one column name: the three regex rewrites in source order,
then the lookup table. -/
def standardizeName (s : String) : String :=
  applyConverter (String.mk (subDigitBracket (subDigitDot (subUnitDot s.data))))

/-- Embedding of `h_standardize_das_cdf_cols_names` on a list of column names. -/
def h_standardize_das_cdf_cols_names (cols_names : List String) : List String :=
  cols_names.map standardizeName

/-! ### Archive Reader (`read_daszip`, source lines 14–50) -/

/-- The error taxonomy of the specification.  `notFound` is realized in the
source by the `positives[0]` indexing error when no member matches, and
`missingSection` by the `dasdict["Events"]` key error. -/
inductive DasError
  | notFound
  | missingSection
deriving DecidableEq, Repr

/-- Embedding of `read_daszip`.  An archive is modelled as its member list:
pairs of member name and decoded text content (decoding is the identity in
the model).  The multiple-match case only emits a non-fatal warning in the
source and still deterministically uses the first match in list order. -/
def read_daszip (zf_list : List (String × String))
    (internal_file_name_pattern : String := "Control.csv") : Except DasError String :=
  let positives := zf_list.filter (fun f => strContains f.1 internal_file_name_pattern)
  match positives with
  | [] => .error .notFound
  | p :: _ => .ok p.2

/-! ### Section Splitter (`convert_daszip_2_dasdict`, source lines 53–111)

`pandas.read_csv` on one section body is modelled just as far as the source
exercises it: an input with no non-blank lines raises `EmptyDataError`; the
first non-blank line is the csv header; a data row wider than the header
raises `ParserError` (the source catches it and delegates to
`h_parse_irregular_csv`); otherwise rows are padded with `NaN` to the
header's width. -/

inductive PdResult
  | ok (t : Table)
  | emptyData
  | parserError
deriving DecidableEq, Repr

/-- Model of `pd.read_csv(StringIO('\n'.join(lines)), sep=';')`. -/
def pdReadCsv (lines : List String) : PdResult :=
  let content := lines.filter (· ≠ "")
  match content with
  | [] => .emptyData
  | headerLine :: body =>
    let header := splitSemi headerLine
    let rowsSplit := body.map splitSemi
    if rowsSplit.all (fun r => r.length ≤ header.length) then
      .ok ⟨header, rowsSplit.map (padRow header.length)⟩
    else .parserError

/-- Insert-or-overwrite on an association list, with Python-dict semantics
(an existing key keeps its position, a new key is appended). -/
def dictInsert (d : List (String × Table)) (k : String) (v : Table) :
    List (String × Table) :=
  if d.any (fun p => p.1 = k) then
    d.map (fun p => if p.1 = k then (k, v) else p)
  else d ++ [(k, v)]

/-- One iteration of the section loop of `convert_daszip_2_dasdict`, acting
on the state `(overwriting_risk, sections_dict)`.  Note that, exactly as in
the source, `setup_number` is (re)bound to `""` at the start of every
iteration, before being appended to the section name — so the appended
suffix is always the empty string, whatever `section_name[-1]` was assigned
to it later in a previous iteration. -/
def processSection (st : Bool × List (String × Table)) (sec : String) :
    Bool × List (String × Table) :=
  let overwriting_risk := st.1
  let sections_dict := st.2
  let section_lines_list := pySplit (pyLstrip sec) "\r\n"
  let section_name0 := pyStripSet ['[', '"', ']'] (section_lines_list.headD "")
  -- setup_number = ""  (reset on every pass through the loop)
  let setup_number := ""
  let section_name1 :=
    if overwriting_risk then section_name0 ++ setup_number else section_name0
  -- if section_name[:5] == "Setup" and section_name != "Setups":
  let isSetup := section_name1.data.take 5 = "Setup".data && section_name1 ≠ "Setups"
  let section_name2 :=
    if isSetup && overwriting_risk then
      String.mk section_name1.data.dropLast   -- section_name = section_name[:-1]
    else section_name1
  let risk2 := if isSetup then true else overwriting_risk
  -- if section_name[:8] == "Profiles": overwriting_risk = False
  let risk3 := if section_name2.data.take 8 = "Profiles".data then false else risk2
  let section_content := section_lines_list.tail
  match pdReadCsv section_content with
  | .ok t =>
    let t2 :=
      if pyStartsWith section_name2 "TrackData" then
        { t with names := h_standardize_das_cdf_cols_names t.names }
      else t
    (risk3, dictInsert sections_dict section_name2 t2)
  | .emptyData => (risk3, sections_dict)    -- no key created for that section
  | .parserError =>
    (risk3, dictInsert sections_dict section_name2
      ((h_parse_irregular_csv section_content).getD ⟨[], []⟩))
    -- the `.getD` default is unreachable: a ParserError needs a data row

/-- Embedding of `convert_daszip_2_dasdict`: split the raw text on blank
lines (`"\r\n\r\n"`) and fold the section loop over the pieces. -/
def convert_daszip_2_dasdict (internal_file : String) : List (String × Table) :=
  let sections_list := pySplit internal_file "\r\n\r\n"
  (sections_list.foldl processSection (false, [])).2

/-! ### Event Extractor (`h_extract_volume_changes`, source lines 213–250)

The numeric values carried by the events and time-series tables are modelled
as `ℚ`; only their sign, absolute value and ordering enter the properties
proved here, and those are preserved exactly by the decimal literals the
source parses with `float`. -/

/-- Digit string to `ℕ` (assumes all characters are digits). -/
def digitsToNat (cs : List Char) : Nat :=
  cs.foldl (fun a c => 10 * a + (c.toNat - 48)) 0

/-- The discrete content of a decimal literal: its sign, the value of its
digit string, and the number of fractional digits. -/
def parseDecimalParts (s : String) : Option (Bool × ℕ × ℕ) :=
  let cs := ((s.data.dropWhile isPySpace).reverse.dropWhile isPySpace).reverse
  let signBody : Bool × List Char :=
    match cs with
    | '-' :: r => (true, r)
    | '+' :: r => (false, r)
    | _ => (false, cs)
  let body := signBody.2
  match body.splitOn '.' with
  | [ip] =>
    if ip.all Char.isDigit && !ip.isEmpty then
      some (signBody.1, digitsToNat ip, 0)
    else none
  | [ip, fp] =>
    if (ip ++ fp).all Char.isDigit && !(ip ++ fp).isEmpty then
      some (signBody.1, digitsToNat (ip ++ fp), fp.length)
    else none
  | _ => none

/-- The rational value of a parsed decimal literal. -/
def ratOfParts (p : Bool × ℕ × ℕ) : ℚ :=
  let mag : ℚ := (p.2.1 : ℚ) / ((10 : ℚ) ^ p.2.2)
  if p.1 then -mag else mag

/-- Model of Python `float(s)` on plain decimal literals: optional
surrounding whitespace, an optional sign, then digits with at most one
dot and at least one digit.  (Exponents, `inf`/`nan` and underscore
separators never occur in the event messages.)  `none` models the
`ValueError` that `astype(float)` would raise. -/
def parseDecimal (s : String) : Option ℚ :=
  (parseDecimalParts s).map ratOfParts

/-- Python slice `d[13:-13]`. -/
def pySlice13 (d : String) : String :=
  String.mk ((d.data.drop 13).take (d.data.length - 26))

/-- One row of the `Events` table as the merge engine consumes it. -/
structure EventRow where
  Timestamp : ℚ
  Reference : Option String
  Description : Option String
deriving DecidableEq, Repr

/-- An events row after `h_extract_volume_changes` has added its derived
columns. -/
structure EventRowX where
  base : EventRow
  Vol_added : Option ℚ
  Liquid_added : Option ℚ
  Vol_removed : Option ℚ
  Feed_pump : Option ℚ
  Feed_balance : Option ℚ
deriving DecidableEq, Repr

/-- The per-row value of the intermediate `vol_change_float` series: rows
whose `Description` starts with `"Added volume"` get the slice `[13:-13]`
parsed as a float, all other rows (including a null `Description`, which
`.str.startswith(...).fillna(False)` sends to `False`) get `NaN`. -/
def volChangeFloat (r : EventRow) : Option ℚ :=
  match r.Description with
  | none => none
  | some d =>
    if pyStartsWith d "Added volume" then parseDecimal (pySlice13 d) else none

/-- Row-wise embedding of `h_extract_volume_changes`:
`Vol_added = v.where(v >= 0)`, `Vol_removed = v.where(v < 0).abs()`, and the
placeholder columns are null. -/
def extractVolumeRow (r : EventRow) : EventRowX :=
  let v := volChangeFloat r
  { base := r
    Vol_added := match v with
      | some x => if 0 ≤ x then some x else none
      | none => none
    Liquid_added := none
    Vol_removed := match v with
      | some x => if x < 0 then some |x| else none
      | none => none
    Feed_pump := none
    Feed_balance := none }

/-- Embedding of `h_extract_volume_changes` on the whole events table. -/
def h_extract_volume_changes (events_df : List EventRow) : List EventRowX :=
  events_df.map extractVolumeRow

/-! ### Reactor Merge Engine (`convert_dasdict_2_cdf_dict` and `inoctime`,
source lines 114–156 and 195–210) -/

/-- One row of a `TrackData` (reactor) table: its first column is the
timestamp, its third column (`iloc[:, 2]`) is the original per-row
inoculation marker that `inoctime` falls back to. -/
structure ReactorRow where
  Timestamp : ℚ
  col1 : Option ℚ
  inocMarker : Option ℚ
deriving DecidableEq, Repr

/-- One row of the outer-merged table: the shared `Timestamp` key plus the
(possibly absent) contributing row from each side. -/
structure MergedRow where
  Timestamp : ℚ
  left : Option ReactorRow
  right : Option EventRowX
deriving DecidableEq, Repr

/-- The merged table's third column (`iloc[:, 2]`): the reactor row's
inoculation marker, null on event-only rows. -/
def mergedThird (r : MergedRow) : Option ℚ :=
  r.left.bind (fun l => l.inocMarker)

/-- The distinct `Timestamp` keys occurring on either side of the merge. -/
def mergeKeys (ls : List ReactorRow) (rs : List EventRowX) : List ℚ :=
  ((ls.map (fun l => l.Timestamp)) ++ (rs.map (fun r => r.base.Timestamp))).dedup

/-- The merged rows contributed by one key: both sides present gives the
cartesian product of their rows for that key, one side present leaves the
other side's columns null. -/
def mergeBlock (ls : List ReactorRow) (rs : List EventRowX) (k : ℚ) : List MergedRow :=
  let lk := ls.filter (fun l => l.Timestamp = k)
  let rk := rs.filter (fun r => r.base.Timestamp = k)
  if lk = [] then rk.map (fun r => ⟨k, none, some r⟩)
  else if rk = [] then lk.map (fun l => ⟨k, some l, none⟩)
  else lk.flatMap (fun l => rk.map (fun r => ⟨k, some l, some r⟩))

/-- Model of `pd.merge_ordered(left, right, on="Timestamp")` (a full outer
merge ordered by the key): every key of either side, in ascending order,
contributes its block of paired rows. -/
def outerMerge (ls : List ReactorRow) (rs : List EventRowX) : List MergedRow :=
  ((mergeKeys ls rs).insertionSort (· ≤ ·)).flatMap (mergeBlock ls rs)

/-- Embedding of `inoctime`.  With no explicit instant, the reference is the
first-column value at the first index whose third column is non-null
(`first_valid_index`; the merged table carries a fresh positional index, so
label and position coincide).  `none` models the failure when every marker
is null.  Timestamps are rationals measured in hours, so the difference is
the signed duration in fractional hours. -/
def inoctime (cdf : List MergedRow) (itime : Option ℚ := none) : Option (List ℚ) :=
  let itime2 : Option ℚ :=
    match itime with
    | some t => some t
    | none =>
      match cdf.findIdx? (fun r => (mergedThird r).isSome) with
      | none => none
      | some i => (cdf.get? i).map (fun r => r.Timestamp)
  itime2.map (fun t => cdf.map (fun r => r.Timestamp - t))

/-- The event filter of the merge loop:
`events_df["Reference"].str.contains("Unit " + reactor_num, na=False)`,
extended in lenient mode (`strict is False`) with `Reference.isnull()`. -/
def reactorEventFltr (strict : Bool) (reactor_num : Char) (e : EventRowX) : Bool :=
  (match e.base.Reference with
   | some r => strContains r ("Unit " ++ String.mk [reactor_num])
   | none => false)
  || (!strict && e.base.Reference.isNone)

/-- A section payload as the merge engine views it: a `TrackData` time
series, the `Events` table, or anything else.  (The tag records which
schema the untyped `DataFrame` of the source actually carries.) -/
inductive SectionData
  | track (rows : List ReactorRow)
  | events (rows : List EventRow)
  | other
deriving DecidableEq, Repr

/-- A merged per-reactor table: its rows and its recomputed
`InoculationTime []` column. -/
structure Cdf where
  rows : List MergedRow
  inoc : Option (List ℚ)
deriving DecidableEq, Repr

/-- Embedding of `convert_dasdict_2_cdf_dict`.  The `Events` lookup happens
first (its failure is the spec's `MissingSectionError`); then every section
whose name starts with `TrackData` is merged with its filtered slice of the
extracted events table, keyed by `int(name[-1])`. -/
def convert_dasdict_2_cdf_dict (dasdict : List (String × SectionData))
    (strict : Bool := true) : Except DasError (List (Nat × Cdf)) :=
  let cdf_dict := dasdict.filter (fun p => pyStartsWith p.1 "TrackData")
  match dasdict.lookup "Events" with
  | some (.events evRows) =>
    let events_df := h_extract_volume_changes evRows
    .ok (cdf_dict.filterMap (fun p =>
      match p.2 with
      | .track reactor_data =>
        let reactor_num := p.1.data.getLastD ' '
        let sel := events_df.filter (reactorEventFltr strict reactor_num)
        let cdf_merged := outerMerge reactor_data sel
        some (reactor_num.toNat - 48,
          { rows := cdf_merged, inoc := inoctime cdf_merged none })
      | _ => none))
  | _ => .error .missingSection

/-! ## Helper lemmas -/

lemma lookup_eq_none_of_no_key {β : Type} (d : List (String × β)) (k : String)
    (h : ∀ p ∈ d, p.1 ≠ k) : d.lookup k = none := by
  induction d with
  | nil => rfl
  | cons p t ih =>
    have hp : p.1 ≠ k := h p (List.mem_cons_self _ _)
    have hk : (k == p.1) = false := beq_eq_false_iff_ne.mpr (fun hkk => hp hkk.symm)
    obtain ⟨a, b⟩ := p
    simp only [List.lookup] at hk ⊢
    rw [hk]
    exact ih (fun q hq => h q (List.mem_cons_of_mem _ hq))

lemma le_foldl_max (l : List ℕ) (b : ℕ) : b ≤ l.foldl max b := by
  induction l generalizing b with
  | nil => exact le_refl b
  | cons x t ih => exact le_trans (le_max_left b x) (ih (max b x))

lemma mem_le_foldl_max (l : List ℕ) (b a : ℕ) (ha : a ∈ l) : a ≤ l.foldl max b := by
  induction l generalizing b with
  | nil => cases ha
  | cons x t ih =>
    rcases List.mem_cons.mp ha with h | h
    · subst h
      exact le_trans (le_max_right b a) (le_foldl_max t _)
    · exact ih _ h

lemma padRow_length (n : ℕ) (r : List String) (h : r.length ≤ n) :
    (padRow n r).length = n := by
  simp only [padRow, List.length_append, List.length_map, List.length_replicate]
  omega

lemma padRow_take (n : ℕ) (r : List String) :
    (padRow n r).take r.length = r.map some := by
  conv_lhs =>
    rw [padRow, show r.length = (r.map some).length from (List.length_map r some).symm]
  exact List.take_left _ _

lemma findIdx?_eq_some_of_first {α : Type} (p : α → Bool) (l : List α) (i : ℕ)
    (hi : i < l.length) (hp : p (l.get ⟨i, hi⟩) = true)
    (hfirst : ∀ j (hj : j < i), p (l.get ⟨j, hj.trans hi⟩) = false) :
    l.findIdx? p = some i := by
  induction l generalizing i with
  | nil => simp at hi
  | cons x t ih =>
    cases i with
    | zero =>
      have hx : p x = true := hp
      simp [List.findIdx?_cons, hx]
    | succ n =>
      have hx : p x = false := hfirst 0 (Nat.succ_pos n)
      have ht : t.findIdx? p = some n :=
        ih n (Nat.lt_of_succ_lt_succ hi) hp
          (fun j hj => hfirst (j + 1) (Nat.succ_lt_succ hj))
      simp [List.findIdx?_cons, hx, List.findIdx?_succ, ht]

lemma length_flatMap_prod {α β γ : Type} (lk : List α) (rk : List β) (f : α → β → γ) :
    (lk.flatMap (fun l => rk.map (f l))).length = lk.length * rk.length := by
  rw [List.length_flatMap]
  simp only [Function.comp_def, List.length_map]
  induction lk with
  | nil => simp
  | cons x t ih =>
    simp only [List.map_cons, List.sum_cons, ih, List.length_cons, Nat.succ_mul]
    omega

lemma toFinset_dedup_eq {α : Type} [DecidableEq α] (l : List α) :
    l.dedup.toFinset = l.toFinset := by
  ext a
  simp [List.mem_toFinset, List.mem_dedup]

lemma mergeBlock_length_mono (ls : List ReactorRow) {rs rs2 : List EventRowX}
    (h : rs.Sublist rs2) (k : ℚ) :
    (mergeBlock ls rs k).length ≤ (mergeBlock ls rs2 k).length := by
  unfold mergeBlock
  have hsub : (rs.filter (fun r => r.base.Timestamp = k)).Sublist
      (rs2.filter (fun r => r.base.Timestamp = k)) := h.filter _
  have hlen : (rs.filter (fun r => r.base.Timestamp = k)).length
      ≤ (rs2.filter (fun r => r.base.Timestamp = k)).length := hsub.length_le
  by_cases hl : ls.filter (fun l => l.Timestamp = k) = []
  · simpa [hl] using hlen
  · by_cases hr : rs.filter (fun r => r.base.Timestamp = k) = []
    · by_cases hr2 : rs2.filter (fun r => r.base.Timestamp = k) = []
      · simp [hl, hr, hr2]
      · simp only [if_neg hl, if_pos hr, if_neg hr2, List.length_map,
          length_flatMap_prod]
        have hpos : 0 < (rs2.filter (fun r => r.base.Timestamp = k)).length :=
          List.length_pos.mpr hr2
        exact Nat.le_mul_of_pos_right _ hpos
    · have hr2 : rs2.filter (fun r => r.base.Timestamp = k) ≠ [] := by
        intro h2
        exact hr (List.sublist_nil.mp (h2 ▸ hsub))
      simp only [if_neg hl, if_neg hr, if_neg hr2, length_flatMap_prod]
      exact Nat.mul_le_mul_left _ hlen

lemma outerMerge_length_eq (ls : List ReactorRow) (rs : List EventRowX) :
    (outerMerge ls rs).length
      = ∑ k ∈ ((ls.map (fun l => l.Timestamp)
            ++ rs.map (fun r => r.base.Timestamp)).toFinset),
          (mergeBlock ls rs k).length := by
  rw [outerMerge, List.length_flatMap]
  have hperm : ((mergeKeys ls rs).insertionSort (· ≤ ·)).Perm (mergeKeys ls rs) :=
    List.perm_insertionSort _ _
  have h1 : ((((mergeKeys ls rs).insertionSort (· ≤ ·)).map
        (List.length ∘ mergeBlock ls rs))).sum
      = ((mergeKeys ls rs).map (List.length ∘ mergeBlock ls rs)).sum :=
    (hperm.map _).sum_eq
  rw [h1]
  have h2 := List.sum_toFinset (List.length ∘ mergeBlock ls rs)
    (List.nodup_dedup ((ls.map (fun l => l.Timestamp)
      ++ rs.map (fun r => r.base.Timestamp))))
  rw [mergeKeys, ← h2, toFinset_dedup_eq]
  rfl

lemma outerMerge_length_mono (ls : List ReactorRow) {rs rs2 : List EventRowX}
    (h : rs.Sublist rs2) :
    (outerMerge ls rs).length ≤ (outerMerge ls rs2).length := by
  rw [outerMerge_length_eq, outerMerge_length_eq]
  have hsubF : ((ls.map (fun l => l.Timestamp)
        ++ rs.map (fun r => r.base.Timestamp)).toFinset)
      ⊆ ((ls.map (fun l => l.Timestamp)
        ++ rs2.map (fun r => r.base.Timestamp)).toFinset) := by
    intro a ha
    simp only [List.mem_toFinset, List.mem_append] at ha ⊢
    rcases ha with h1 | h2
    · exact Or.inl h1
    · exact Or.inr ((h.map _).subset h2)
  calc ∑ k ∈ ((ls.map (fun l => l.Timestamp)
          ++ rs.map (fun r => r.base.Timestamp)).toFinset),
        (mergeBlock ls rs k).length
      ≤ ∑ k ∈ ((ls.map (fun l => l.Timestamp)
          ++ rs.map (fun r => r.base.Timestamp)).toFinset),
        (mergeBlock ls rs2 k).length :=
        Finset.sum_le_sum (fun k _ => mergeBlock_length_mono ls h k)
    _ ≤ ∑ k ∈ ((ls.map (fun l => l.Timestamp)
          ++ rs2.map (fun r => r.base.Timestamp)).toFinset),
        (mergeBlock ls rs2 k).length :=
        Finset.sum_le_sum_of_subset hsubF

/-! ## The claims -/

/-- Concrete export text with two setup blocks, each containing a `Device`
section (the second one carrying the row `5;6`). -/
def twoSetupFile : String :=
  "Setup1\r\nH;K\r\n1;2\r\n\r\nDevice\r\nA;B\r\n1;2\r\n\r\nProfiles\r\nP;Q\r\n1;2\r\n\r\nSetup2\r\nH;K\r\n3;4\r\n\r\nDevice\r\nA;B\r\n5;6"

/-- C1: the suffixing the claim describes never happens.  In the source,
`setup_number` is reset to `""` at the top of every loop iteration before
being appended, so a `Device` section inside setup 2 is stored under
`Device` (not `Device2`) and overwrites the `Device` section of setup 1:
on `twoSetupFile` the resulting DasDict has the keys
`Setup1, Device, Profiles, Setup2`, no `Device1`/`Device2` key, and the
single `Device` entry holds the second setup's row `5;6`. -/
theorem setup_suffix_never_appended :
    (convert_daszip_2_dasdict twoSetupFile).map Prod.fst
        = ["Setup1", "Device", "Profiles", "Setup2"]
      ∧ (convert_daszip_2_dasdict twoSetupFile).lookup "Device2" = none
      ∧ (convert_daszip_2_dasdict twoSetupFile).lookup "Device1" = none
      ∧ (convert_daszip_2_dasdict twoSetupFile).lookup "Device"
          = some ⟨["A", "B"], [[some "5", some "6"]]⟩ := by
  decide

/-- C3: for an events row whose `Description` carries the `"Added volume"`
prefix and whose `[13:-13]` slice parses to a number `x`, a positive `x`
lands in `Vol_added` with `Vol_removed` null, and a negative `x` lands (as
its absolute value) in `Vol_removed` with `Vol_added` null; a row whose
`Description` does not start with `"Added volume"` (or is null) has both
fields null. -/
theorem extract_volume_changes_sign_routing (r : EventRow) :
    ((∀ d, r.Description = some d → pyStartsWith d "Added volume" = false) →
        (extractVolumeRow r).Vol_added = none ∧ (extractVolumeRow r).Vol_removed = none)
    ∧ (∀ d x, r.Description = some d → pyStartsWith d "Added volume" = true →
        parseDecimal (pySlice13 d) = some x →
        ((0 < x → (extractVolumeRow r).Vol_added = some x
            ∧ (extractVolumeRow r).Vol_removed = none)
          ∧ (x < 0 → (extractVolumeRow r).Vol_removed = some |x|
            ∧ (extractVolumeRow r).Vol_added = none))) := by
  constructor
  · intro hno
    cases hd : r.Description with
    | none => simp [extractVolumeRow, volChangeFloat, hd]
    | some d =>
      have hps : pyStartsWith d "Added volume" = false := hno d hd
      simp [extractVolumeRow, volChangeFloat, hd, hps]
  · intro d x hd hpre hparse
    constructor
    · intro hx
      have h1 : ¬x < 0 := not_lt.mpr (le_of_lt hx)
      simp [extractVolumeRow, volChangeFloat, hd, hpre, hparse, le_of_lt hx, h1]
    · intro hx
      have h1 : ¬(0 : ℚ) ≤ x := not_le.mpr hx
      simp [extractVolumeRow, volChangeFloat, hd, hpre, hparse, hx, h1]

/-- Witness for C3 at a concrete positive-volume row. -/
theorem extract_volume_changes_sign_routing_witness :
    (extractVolumeRow ⟨0, none, some "Added volume 5.0abcdefghijklm"⟩).Vol_added = some 5
      ∧ (extractVolumeRow ⟨0, none, some "Added volume 5.0abcdefghijklm"⟩).Vol_removed
          = none := by
  have hparts : parseDecimalParts (pySlice13 "Added volume 5.0abcdefghijklm")
      = some (false, 50, 1) := by decide
  have hparse : parseDecimal (pySlice13 "Added volume 5.0abcdefghijklm") = some 5 := by
    rw [parseDecimal, hparts]
    norm_num [ratOfParts]
  exact ((extract_volume_changes_sign_routing
      ⟨0, none, some "Added volume 5.0abcdefghijklm"⟩).2
    "Added volume 5.0abcdefghijklm" 5 rfl (by decide) hparse).1 (by norm_num)

/-- C4: when no archive member name contains the requested pattern, the
member list filter is empty, the Python code fails on `positives[0]` (the
spec's `NotFoundError`) and no text is returned. -/
theorem read_daszip_no_match (zf_list : List (String × String)) (pat : String)
    (h : ∀ f ∈ zf_list, strContains f.1 pat = false) :
    read_daszip zf_list pat = .error .notFound := by
  have hf : zf_list.filter (fun f => strContains f.1 pat) = [] :=
    List.filter_eq_nil_iff.mpr (by simpa using h)
  simp only [read_daszip, hf]

/-- Witness for C4: an archive with two members, none matching
`"Control.csv"`. -/
theorem read_daszip_no_match_witness :
    read_daszip [("setpoints.txt", "x"), ("readme.md", "y")] "Control.csv"
      = .error .notFound :=
  read_daszip_no_match [("setpoints.txt", "x"), ("readme.md", "y")] "Control.csv"
    (by decide)

/-- C5: a DasDict with no `Events` section makes the Reactor Merge Engine
fail with the spec's `MissingSectionError` (the `dasdict["Events"]` key
error in the source), in strict and lenient mode alike. -/
theorem convert_dasdict_missing_events (dasdict : List (String × SectionData))
    (strict : Bool) (h : ∀ p ∈ dasdict, p.1 ≠ "Events") :
    convert_dasdict_2_cdf_dict dasdict strict = .error .missingSection := by
  have hl : dasdict.lookup "Events" = none := lookup_eq_none_of_no_key dasdict "Events" h
  simp only [convert_dasdict_2_cdf_dict, hl]

/-- Witness for C5: a DasDict holding only a reactor section. -/
theorem convert_dasdict_missing_events_witness :
    convert_dasdict_2_cdf_dict [("TrackData1", .track [⟨1, none, some 0⟩])] true
      = .error .missingSection :=
  convert_dasdict_missing_events [("TrackData1", .track [⟨1, none, some 0⟩])] true
    (by decide)

set_option maxHeartbeats 4000000 in
/-- C8: for every pair of the version-4 → version-5 lookup table and every
reactor unit digit 1–9, the Column Name Normalizer sends the version-4
per-reactor name `Unit <d>.<v4 name>` and the version-5 per-reactor name
`Unit <d>.<v5 name>` to the same canonical column name. -/
theorem standardize_v4_v5_agree :
    ∀ p ∈ das_converter_dict, ∀ d ∈ "123456789".data,
      h_standardize_das_cdf_cols_names ["Unit " ++ String.mk [d] ++ "." ++ p.1]
        = h_standardize_das_cdf_cols_names ["Unit " ++ String.mk [d] ++ "." ++ p.2] := by
  decide

/-- Witness for C8 at the `Inoculation Time []` pair and unit 3. -/
theorem standardize_v4_v5_agree_witness :
    h_standardize_das_cdf_cols_names ["Unit 3.Inoculation Time []"]
      = h_standardize_das_cdf_cols_names ["Unit 3.InoculationTime []"] := by
  have h := standardize_v4_v5_agree ("Inoculation Time []", "InoculationTime []")
    (by decide) '3' (by decide)
  simpa using h

/-- C9 counterexample: a section whose body is a lone csv header (so: no
data rows) is NOT omitted — `pd.read_csv` parses a header-only body into an
empty table without raising `EmptyDataError`, and the splitter stores it. -/
theorem header_only_section_is_stored :
    convert_daszip_2_dasdict "Sec\r\nA;B" = [("Sec", ⟨["A", "B"], []⟩)] := by
  decide

/-- C9 (amended): only a section whose body has no non-blank lines at all
(hence not even a csv header) is silently skipped: the loop step leaves the
DasDict unchanged and, `convert_daszip_2_dasdict` being the fold of
`processSection`, the remaining sections are processed as usual. -/
theorem empty_body_section_skipped (risk : Bool) (dict : List (String × Table))
    (sec : String)
    (h : (pySplit (pyLstrip sec) "\r\n").tail.filter (fun l => l ≠ "") = []) :
    (processSection (risk, dict) sec).2 = dict := by
  simp only [processSection, pdReadCsv, h]

/-- Witness for the amended C9: a section consisting of nothing but its
name line. -/
theorem empty_body_section_skipped_witness :
    (processSection (false, [("Keep", ⟨["A"], []⟩)]) "Lone").2
      = [("Keep", ⟨["A"], []⟩)] :=
  empty_body_section_skipped false [("Keep", ⟨["A"], []⟩)] "Lone" (by decide)

/-- C10: on every row the Event Extractor produces, at most one of
`Vol_added` and `Vol_removed` is non-null, and a parsed volume of exactly 0
goes to `Vol_added` (as 0) with `Vol_removed` null. -/
theorem extract_volume_changes_exclusive (r : EventRow) :
    ((extractVolumeRow r).Vol_added = none ∨ (extractVolumeRow r).Vol_removed = none)
    ∧ (volChangeFloat r = some 0 →
        (extractVolumeRow r).Vol_added = some 0
          ∧ (extractVolumeRow r).Vol_removed = none) := by
  constructor
  · cases hv : volChangeFloat r with
    | none => left; simp [extractVolumeRow, hv]
    | some x =>
      by_cases hx : (0 : ℚ) ≤ x
      · right; simp [extractVolumeRow, hv, not_lt.mpr hx]
      · left; simp [extractVolumeRow, hv, hx]
  · intro hv
    simp [extractVolumeRow, hv]

/-- Witness for C10 at a concrete zero-volume row. -/
theorem extract_volume_changes_exclusive_witness :
    ((extractVolumeRow ⟨0, none, some "Added volume 0.0abcdefghijklm"⟩).Vol_added = none
      ∨ (extractVolumeRow ⟨0, none, some "Added volume 0.0abcdefghijklm"⟩).Vol_removed
          = none)
    ∧ ((extractVolumeRow ⟨0, none, some "Added volume 0.0abcdefghijklm"⟩).Vol_added
          = some 0
        ∧ (extractVolumeRow ⟨0, none, some "Added volume 0.0abcdefghijklm"⟩).Vol_removed
          = none) :=
  ⟨(extract_volume_changes_exclusive ⟨0, none, some "Added volume 0.0abcdefghijklm"⟩).1,
   (extract_volume_changes_exclusive ⟨0, none, some "Added volume 0.0abcdefghijklm"⟩).2
     (by
      have hparts : parseDecimalParts
          (pySlice13 "Added volume 0.0abcdefghijklm") = some (false, 0, 1) := by decide
      show parseDecimal (pySlice13 "Added volume 0.0abcdefghijklm") = some 0
      rw [parseDecimal, hparts]
      norm_num [ratOfParts])⟩

/-- C2: on a section body whose header splits into `H` fields and whose data
rows have maximum split length `M ≥ H`, `h_parse_irregular_csv` succeeds and
returns a table whose column names are the header followed by
`unknown1..unknown(M−H)`, and whose rows are exactly the data lines, each
padded (never truncated, never dropped) to width `M` with its original
fields as prefix. -/
theorem h_parse_irregular_csv_shape (headerLine : String) (body : List String)
    (H M : ℕ) (hH : H = (splitSemi headerLine).length)
    (hM : M = maxRowLen ((body.filter (fun l => l ≠ "")).map splitSemi))
    (hne : body.filter (fun l => l ≠ "") ≠ []) (hHM : H ≤ M) :
    ∃ t, h_parse_irregular_csv (headerLine :: body) = some t
      ∧ t.names = splitSemi headerLine
          ++ (List.range (M - H)).map (fun i => "unknown" ++ toString (i + 1))
      ∧ t.names.length = M
      ∧ t.rows = (body.filter (fun l => l ≠ "")).map (fun l => padRow M (splitSemi l))
      ∧ (∀ row ∈ t.rows, row.length = M)
      ∧ (∀ l ∈ body.filter (fun l => l ≠ ""),
          (padRow M (splitSemi l)).take (splitSemi l).length = (splitSemi l).map some) := by
  subst hH hM
  have hlen : (splitSemi headerLine
      ++ (List.range (maxRowLen ((body.filter (fun l => l ≠ "")).map splitSemi)
          - (splitSemi headerLine).length)).map
        (fun i => "unknown" ++ toString (i + 1))).length
      = maxRowLen ((body.filter (fun l => l ≠ "")).map splitSemi) := by
    simp only [List.length_append, List.length_map, List.length_range]
    exact Nat.add_sub_cancel' hHM
  have hout : h_parse_irregular_csv (headerLine :: body)
      = some ⟨splitSemi headerLine
          ++ (List.range (maxRowLen ((body.filter (fun l => l ≠ "")).map splitSemi)
              - (splitSemi headerLine).length)).map
            (fun i => "unknown" ++ toString (i + 1)),
          ((body.filter (fun l => l ≠ "")).map splitSemi).map
            (padRow (maxRowLen ((body.filter (fun l => l ≠ "")).map splitSemi)))⟩ := by
    rw [h_parse_irregular_csv]
    cases hdl : body.filter (fun l => l ≠ "") with
    | nil => exact absurd hdl hne
    | cons a as =>
      simp only [hdl, hlen.symm]
      rw [← hdl, hlen]
  refine ⟨_, hout, rfl, hlen, ?_, ?_, ?_⟩
  · show ((body.filter (fun l => l ≠ "")).map splitSemi).map
        (padRow (maxRowLen ((body.filter (fun l => l ≠ "")).map splitSemi)))
      = (body.filter (fun l => l ≠ "")).map
        (fun l => padRow (maxRowLen ((body.filter (fun l => l ≠ "")).map splitSemi))
          (splitSemi l))
    rw [List.map_map]
    rfl
  · intro row hrow
    show row.length = maxRowLen ((body.filter (fun l => l ≠ "")).map splitSemi)
    have hrow2 : row ∈ ((body.filter (fun l => l ≠ "")).map splitSemi).map
        (padRow (maxRowLen ((body.filter (fun l => l ≠ "")).map splitSemi))) := hrow
    rw [List.mem_map] at hrow2
    obtain ⟨r, hr, hrw⟩ := hrow2
    subst hrw
    refine padRow_length _ _ ?_
    refine mem_le_foldl_max _ 0 r.length ?_
    exact List.mem_map.mpr ⟨r, hr, rfl⟩
  · intro l _
    exact padRow_take _ _

/-- Witness for C2: header `A;B` (H = 2) with data rows `1;2;3;4` and `7`
(M = 4). -/
theorem h_parse_irregular_csv_shape_witness :
    ∃ t, h_parse_irregular_csv ["A;B", "1;2;3;4", "7"] = some t
      ∧ t.names = splitSemi "A;B"
          ++ (List.range (4 - 2)).map (fun i => "unknown" ++ toString (i + 1))
      ∧ t.names.length = 4
      ∧ t.rows = (["1;2;3;4", "7"].filter (fun l => l ≠ "")).map
          (fun l => padRow 4 (splitSemi l))
      ∧ (∀ row ∈ t.rows, row.length = 4)
      ∧ (∀ l ∈ ["1;2;3;4", "7"].filter (fun l => l ≠ ""),
          (padRow 4 (splitSemi l)).take (splitSemi l).length = (splitSemi l).map some) :=
  h_parse_irregular_csv_shape "A;B" ["1;2;3;4", "7"] 2 4
    (by decide) (by decide) (by decide) (by decide)

/-- C6: with no explicit inoculation instant, `inoctime` takes as reference
the first-column timestamp of the first row whose third column is non-null,
and returns for every row `timestamp − reference` — negative exactly on
rows whose timestamp precedes the reference instant. -/
theorem inoctime_reference_and_delta (cdf : List MergedRow) (i : ℕ)
    (hi : i < cdf.length)
    (hmark : (mergedThird (cdf.get ⟨i, hi⟩)).isSome = true)
    (hfirst : ∀ j (hj : j < i), (mergedThird (cdf.get ⟨j, hj.trans hi⟩)).isSome = false) :
    inoctime cdf none
        = some (cdf.map (fun r => r.Timestamp - (cdf.get ⟨i, hi⟩).Timestamp))
      ∧ ∀ r ∈ cdf, (r.Timestamp - (cdf.get ⟨i, hi⟩).Timestamp < 0
          ↔ r.Timestamp < (cdf.get ⟨i, hi⟩).Timestamp) := by
  have hf : cdf.findIdx? (fun r => (mergedThird r).isSome) = some i :=
    findIdx?_eq_some_of_first _ _ i hi hmark hfirst
  constructor
  · simp only [inoctime, hf, List.get?_eq_get hi, Option.map_some']
  · intro r _
    exact sub_neg

/-- Three merged rows whose first non-null third column sits on the middle
row (timestamp 2): concrete data for the C6 witness. -/
def sampleMerged : List MergedRow :=
  [⟨1, some ⟨1, none, none⟩, none⟩, ⟨2, some ⟨2, none, some 9⟩, none⟩, ⟨3, none, none⟩]

/-- Witness for C6 on `sampleMerged`, whose reference row is index 1. -/
theorem inoctime_reference_and_delta_witness :
    inoctime sampleMerged none
        = some (sampleMerged.map
          (fun r => r.Timestamp - (sampleMerged.get ⟨1, by decide⟩).Timestamp))
      ∧ ∀ r ∈ sampleMerged,
          (r.Timestamp - (sampleMerged.get ⟨1, by decide⟩).Timestamp < 0
            ↔ r.Timestamp < (sampleMerged.get ⟨1, by decide⟩).Timestamp) :=
  inoctime_reference_and_delta sampleMerged 1 (by decide) (by decide)
    (by
      intro j hj
      have hj0 : j = 0 := by omega
      subst hj0
      exact (by decide :
        (mergedThird (sampleMerged.get ⟨0, Nat.zero_lt_succ 2⟩)).isSome = false))

/-- C7: for any events table and reactor digit, the lenient event selection
contains an extracted row iff the strict selection does or the row's
`Reference` is null (and strictly selected rows never have a null
`Reference`) — so the extra lenient rows are exactly the unattributed
events — and the outer-merged table built from the lenient selection has at
least as many rows as the one built from the strict selection. -/
theorem lenient_mode_superset (events : List EventRow) (reactor_num : Char)
    (track : List ReactorRow) :
    (∀ e ∈ h_extract_volume_changes events,
        (e ∈ (h_extract_volume_changes events).filter (reactorEventFltr false reactor_num)
          ↔ e ∈ (h_extract_volume_changes events).filter (reactorEventFltr true reactor_num)
            ∨ e.base.Reference = none)
      ∧ (e ∈ (h_extract_volume_changes events).filter (reactorEventFltr true reactor_num)
          → e.base.Reference ≠ none))
    ∧ (outerMerge track
          ((h_extract_volume_changes events).filter (reactorEventFltr true reactor_num))).length
        ≤ (outerMerge track
          ((h_extract_volume_changes events).filter (reactorEventFltr false reactor_num))).length := by
  have himp : ∀ e, reactorEventFltr true reactor_num e = true
      → reactorEventFltr false reactor_num e = true := by
    intro e he
    unfold reactorEventFltr at he ⊢
    cases hcase : e.base.Reference with
    | none =>
      rw [hcase] at he
      simp at he
    | some s =>
      rw [hcase] at he
      simp only [Bool.or_eq_true] at he ⊢
      rcases he with h1 | h1
      · exact Or.inl h1
      · simp at h1
  constructor
  · intro e he
    constructor
    · constructor
      · intro hl
        have hfl := (List.mem_filter.mp hl).2
        unfold reactorEventFltr at hfl
        cases hr : e.base.Reference with
        | none => exact Or.inr rfl
        | some s =>
          refine Or.inl (List.mem_filter.mpr ⟨he, ?_⟩)
          unfold reactorEventFltr
          rw [hr] at hfl ⊢
          simpa using hfl
      · intro hl
        rcases hl with hs | hnone
        · exact List.mem_filter.mpr ⟨he, himp e (List.mem_filter.mp hs).2⟩
        · refine List.mem_filter.mpr ⟨he, ?_⟩
          unfold reactorEventFltr
          rw [hnone]
          simp
    · intro hs hnone
      have hfl := (List.mem_filter.mp hs).2
      unfold reactorEventFltr at hfl
      rw [hnone] at hfl
      simp at hfl
  · exact outerMerge_length_mono track (List.monotone_filter_right _ himp)

/-- Witness for C7: the merged-length comparison at a one-row reactor table
and a single unattributed event. -/
theorem lenient_mode_superset_witness :
    (outerMerge [⟨1, none, some 0⟩]
        ((h_extract_volume_changes [⟨2, none, some "note"⟩]).filter
          (reactorEventFltr true '1'))).length
      ≤ (outerMerge [⟨1, none, some 0⟩]
        ((h_extract_volume_changes [⟨2, none, some "note"⟩]).filter
          (reactorEventFltr false '1'))).length :=
  (lenient_mode_superset [⟨2, none, some "note"⟩] '1' [⟨1, none, some 0⟩]).2

end DasExtractor
